import Mathlib

/-!
Shallow embedding of the CaltechKarts 2D physics core: the separating-axis
collision detector of src/library/collision.c, together with the collision
event wiring and physics collision response whose interfaces are declared in
the forces header (their implementation file is not part of the sources, so
those two are modelled from the specification).

Modelling conventions:
* C doubles are idealised as real numbers; the constant DBL_MAX below is the
  exact value of the C constant, 2 ^ 1024 - 2 ^ 971.
* vector_t with fields x, y becomes the pair type over the reals
  (field x maps to .1, field y maps to .2).  The vec_* helpers of the
  vector library (an external collaborator of the core) are given their
  documented mathematical meaning.
* list_t of vectors becomes a Lean List; list_get and list_size become
  List.getD and List.length.  Lists in the embedding are immutable values,
  so the C functions' non-mutation of their inputs is inherent.
* a body_t enters find_collision only through body_get_shape, which returns
  an owned copy of its vertex polygon; bodies are therefore modelled by the
  vertex lists of their shapes.
* the out-parameter min_overlap of compare_collision becomes an explicit
  argument plus an extra component of the returned value.
-/

abbrev vector_t := ℝ × ℝ

/-- the vector library's zero vector -/
def VEC_ZERO : vector_t := (0, 0)

/-- componentwise difference, the meaning of vec_subtract -/
noncomputable def vec_subtract (a b : vector_t) : vector_t := (a.1 - b.1, a.2 - b.2)

/-- scalar multiple, the meaning of vec_multiply -/
noncomputable def vec_multiply (c : ℝ) (v : vector_t) : vector_t := (c * v.1, c * v.2)

/-- dot product, the meaning of vec_dot -/
noncomputable def vec_dot (a b : vector_t) : ℝ := a.1 * b.1 + a.2 * b.2

/-- Euclidean length, the meaning of vec_get_length -/
noncomputable def vec_get_length (v : vector_t) : ℝ := Real.sqrt (v.1 ^ 2 + v.2 ^ 2)

/-- the result record of find_collision (collision.h) -/
structure collision_info_t where
  axis : vector_t
  collided : Bool

/-- the C constant __DBL_MAX__, used as the sentinel initialiser of the
running minimum / maximum in collision.c -/
noncomputable def DBL_MAX : ℝ := 2 ^ 1024 - 2 ^ 971

/-- collision.c get_edges: edge i is vertex (i % N) minus vertex ((i+1) % N) -/
noncomputable def get_edges (shape : List vector_t) : List vector_t :=
  (List.range shape.length).map fun i =>
    vec_subtract (shape.getD (i % shape.length) VEC_ZERO)
      (shape.getD ((i + 1) % shape.length) VEC_ZERO)

/-- collision.c get_max_min_projections: the returned pair is
(maximum projection, minimum projection), accumulated through the loop
starting from the sentinels (-DBL_MAX, DBL_MAX) exactly as the C loop does -/
noncomputable def get_max_min_projections (shape : List vector_t)
    (unit_axis : vector_t) : vector_t :=
  shape.foldl (fun mm vertex =>
    let proj := vec_dot vertex unit_axis
    (if proj > mm.1 then proj else mm.1, if proj < mm.2 then proj else mm.2))
    (-DBL_MAX, DBL_MAX)

/-- the axis computed from one edge in the loop body of compare_collision:
rotate the edge by 90 degrees ((x, y) to (-y, x)) and normalise -/
noncomputable def unit_axis_of (sep_axis : vector_t) : vector_t :=
  let perp_axis : vector_t := (-1 * sep_axis.2, sep_axis.1)
  vec_multiply (1 / vec_get_length perp_axis) perp_axis

/-- the loop of compare_collision over the edge list of shape1, carrying the
collision record and the min_overlap out-parameter; the early return on a
separating axis and the final setting of collided to true mirror the C
control flow -/
noncomputable def compare_loop (shape1 shape2 : List vector_t) :
    List vector_t → collision_info_t → ℝ → collision_info_t × ℝ
  | [], collision, min_overlap => ({ collision with collided := true }, min_overlap)
  | sep_axis :: rest, collision, min_overlap =>
    let unit_axis := unit_axis_of sep_axis
    let proj_1 := get_max_min_projections shape1 unit_axis
    let proj_2 := get_max_min_projections shape2 unit_axis
    if proj_2.2 ≥ proj_1.1 ∨ proj_2.1 ≤ proj_1.2 then
      (collision, min_overlap)
    else
      let overlap := min proj_1.1 proj_2.1 - max proj_1.2 proj_2.2
      if overlap < min_overlap then
        compare_loop shape1 shape2 rest { collision with axis := unit_axis } overlap
      else
        compare_loop shape1 shape2 rest collision min_overlap

/-- collision.c compare_collision: runs the loop over the edges of shape1
starting from a record with zero axis and collided = false -/
noncomputable def compare_collision (shape1 shape2 : List vector_t)
    (min_overlap : ℝ) : collision_info_t × ℝ :=
  compare_loop shape1 shape2 (get_edges shape1) ⟨VEC_ZERO, false⟩ min_overlap

/-- collision.c find_collision: one pass per shape, each with its own
min_overlap initialised to DBL_MAX, then the selection logic of lines
106-117 -/
noncomputable def find_collision (body1 body2 : List vector_t) : collision_info_t :=
  let r1 := compare_collision body1 body2 DBL_MAX
  let r2 := compare_collision body2 body1 DBL_MAX
  if r1.1.collided = false then r1.1
  else if r2.1.collided = false then r2.1
  else if r1.2 < r2.2 then r1.1 else r2.1

/-- the separation test of collision.c line 75 for one axis, with shape1 in
the role of proj_1 and shape2 in the role of proj_2 -/
noncomputable def separated_on (shape1 shape2 : List vector_t) (u : vector_t) : Prop :=
  (get_max_min_projections shape2 u).2 ≥ (get_max_min_projections shape1 u).1 ∨
    (get_max_min_projections shape2 u).1 ≤ (get_max_min_projections shape1 u).2

/-- the overlap depth of collision.c line 79 for one axis:
min(maxA, maxB) - max(minA, minB) on the projections of the two shapes -/
noncomputable def overlap_depth (shape1 shape2 : List vector_t) (u : vector_t) : ℝ :=
  min (get_max_min_projections shape1 u).1 (get_max_min_projections shape2 u).1 -
    max (get_max_min_projections shape1 u).2 (get_max_min_projections shape2 u).2

/-- the minimum overlap depth one pass of compare_collision accumulates over
the edge-normal axes of shape1, starting from the caller's DBL_MAX seed -/
noncomputable def pass_min_overlap (shape1 shape2 : List vector_t) : ℝ :=
  (get_edges shape1).foldl
    (fun acc e => min acc (overlap_depth shape1 shape2 (unit_axis_of e))) DBL_MAX

/-- Modelled from the spec: the per-tick action of the force creator that
create_collision registers (its implementation file, forces.c, is not among
the sources; only its declaration in the forces header is).  Given this
tick's collided verdict from find_collision and the persisted contact flag,
it returns whether the handler is invoked this tick together with the new
flag: if collided is true and the flag was false, invoke the handler and set
the flag; if collided is false, clear the flag; otherwise leave the flag. -/
def collision_tick (collided flag : Bool) : Bool × Bool :=
  if collided && !flag then (true, true)
  else if !collided then (false, false)
  else (false, flag)

/-- Modelled from the spec: the tick loop of the collision event wiring over
a whole sequence of per-tick collided verdicts, threading the persisted
contact flag and recording on which ticks the handler fired. -/
def collision_run : List Bool → Bool → List Bool
  | [], _ => []
  | c :: rest, flag =>
    let t := collision_tick c flag
    t.1 :: collision_run rest t.2

/-- Modelled from the spec: the handler firing pattern of a binding freshly
registered by create_collision (the persisted flag starts out false). -/
def collision_fires (ticks : List Bool) : List Bool :=
  collision_run ticks false

/-- Modelled from the spec: the reduced mass of physics_collision_handler
(forces.c is not among the sources).  Masses are real numbers with none
standing for the INFINITY sentinel: both finite gives m1 * m2 / (m1 + m2),
one infinite gives the other, finite, mass; both infinite is an unsupported
configuration (given a junk value of 0 here). -/
noncomputable def reduced_mass : Option ℝ → Option ℝ → ℝ
  | some m1, some m2 => m1 * m2 / (m1 + m2)
  | none, some m2 => m2
  | some m1, none => m1
  | none, none => 0

/-- Modelled from the spec: physics_collision_handler.  Arguments are the
two bodies' masses (none = INFINITY) and velocities, the collision axis (a
unit vector pointing from body1 towards body2, per the forces header), and
the elasticity.  The result is the pair of impulses accumulated onto the two
bodies.  The relative velocity along the axis is (vel1 - vel2) . axis, which
is positive exactly when the bodies approach; on an already-separating
contact no impulse is applied.  Otherwise the impulse magnitude is
mu * (1 + elasticity) * v_rel, subtracted from body1's momentum and added to
body2's, with an infinite-mass body receiving no impulse. -/
noncomputable def physics_collision_handler (m1 m2 : Option ℝ) (v1 v2 : vector_t)
    (axis : vector_t) (elasticity : ℝ) : vector_t × vector_t :=
  let v_rel := vec_dot (vec_subtract v1 v2) axis
  if v_rel ≤ 0 then (VEC_ZERO, VEC_ZERO)
  else
    let impulse := reduced_mass m1 m2 * (1 + elasticity) * v_rel
    ((match m1 with
      | none => VEC_ZERO
      | some _ => vec_multiply (-impulse) axis),
     (match m2 with
      | none => VEC_ZERO
      | some _ => vec_multiply impulse axis))

/-! ### Elementary facts about the folds used by get_max_min_projections -/

theorem foldl_max_init_le (l : List ℝ) (a : ℝ) : a ≤ l.foldl max a := by
  induction l generalizing a with
  | nil => exact le_refl a
  | cons x t ih => exact le_trans (le_max_left a x) (ih (max a x))

theorem le_foldl_max_of_mem {l : List ℝ} {x : ℝ} (a : ℝ) (h : x ∈ l) :
    x ≤ l.foldl max a := by
  induction l generalizing a with
  | nil => cases h
  | cons y t ih =>
    rcases List.mem_cons.mp h with rfl | hx
    · exact le_trans (le_max_right a x) (foldl_max_init_le t (max a x))
    · exact ih (max a y) hx

theorem foldl_max_eq_init_or_mem (l : List ℝ) (a : ℝ) :
    l.foldl max a = a ∨ l.foldl max a ∈ l := by
  induction l generalizing a with
  | nil => exact Or.inl rfl
  | cons x t ih =>
    rcases ih (max a x) with h | h
    · rcases max_cases a x with ⟨hm, _⟩ | ⟨hm, _⟩
      · exact Or.inl (by rw [List.foldl_cons, h, hm])
      · exact Or.inr (by rw [List.foldl_cons, h, hm]; exact List.mem_cons_self x t)
    · exact Or.inr (List.mem_cons_of_mem x h)

theorem foldl_min_le_init (l : List ℝ) (a : ℝ) : l.foldl min a ≤ a := by
  induction l generalizing a with
  | nil => exact le_refl a
  | cons x t ih => exact le_trans (ih (min a x)) (min_le_left a x)

theorem foldl_min_le_of_mem {l : List ℝ} {x : ℝ} (a : ℝ) (h : x ∈ l) :
    l.foldl min a ≤ x := by
  induction l generalizing a with
  | nil => cases h
  | cons y t ih =>
    rcases List.mem_cons.mp h with rfl | hx
    · exact le_trans (foldl_min_le_init t (min a x)) (min_le_right a x)
    · exact ih (min a y) hx

theorem foldl_min_eq_init_or_mem (l : List ℝ) (a : ℝ) :
    l.foldl min a = a ∨ l.foldl min a ∈ l := by
  induction l generalizing a with
  | nil => exact Or.inl rfl
  | cons x t ih =>
    rcases ih (min a x) with h | h
    · rcases min_cases a x with ⟨hm, _⟩ | ⟨hm, _⟩
      · exact Or.inl (by rw [List.foldl_cons, h, hm])
      · exact Or.inr (by rw [List.foldl_cons, h, hm]; exact List.mem_cons_self x t)
    · exact Or.inr (List.mem_cons_of_mem x h)

/-- the pair fold of the C loop splits into the two scalar folds -/
theorem gmm_eq_foldl (shape : List vector_t) (u : vector_t) :
    get_max_min_projections shape u =
      ((shape.map fun v => vec_dot v u).foldl max (-DBL_MAX),
       (shape.map fun v => vec_dot v u).foldl min DBL_MAX) := by
  unfold get_max_min_projections
  rw [List.foldl_map, List.foldl_map]
  generalize -DBL_MAX = a
  generalize DBL_MAX = b
  induction shape generalizing a b with
  | nil => rfl
  | cons v t ih =>
    simp only [List.foldl_cons]
    rw [← ih]
    congr 2
    · by_cases h : vec_dot v u > a
      · simp [h, max_eq_right h.le]
      · simp [h, max_eq_left (not_lt.mp h)]
    · by_cases h : vec_dot v u < b
      · simp [h, min_eq_right h.le]
      · simp [h, min_eq_left (not_lt.mp h)]

theorem gmm_fst_ge {shape : List vector_t} (u : vector_t) {v : vector_t}
    (hv : v ∈ shape) : vec_dot v u ≤ (get_max_min_projections shape u).1 := by
  rw [gmm_eq_foldl]
  exact le_foldl_max_of_mem _ (List.mem_map_of_mem _ hv)

theorem gmm_snd_le {shape : List vector_t} (u : vector_t) {v : vector_t}
    (hv : v ∈ shape) : (get_max_min_projections shape u).2 ≤ vec_dot v u := by
  rw [gmm_eq_foldl]
  exact foldl_min_le_of_mem _ (List.mem_map_of_mem _ hv)

theorem gmm_fst_attained {shape : List vector_t} (u : vector_t) (hne : shape ≠ [])
    (hb : ∀ v ∈ shape, -DBL_MAX < vec_dot v u) :
    ∃ v ∈ shape, (get_max_min_projections shape u).1 = vec_dot v u := by
  rw [gmm_eq_foldl]
  rcases foldl_max_eq_init_or_mem (shape.map fun v => vec_dot v u) (-DBL_MAX) with h | h
  · obtain ⟨v, hv⟩ := List.exists_mem_of_ne_nil shape hne
    have h1 := le_foldl_max_of_mem (l := shape.map fun v => vec_dot v u) (-DBL_MAX)
      (List.mem_map_of_mem _ hv)
    exact absurd (h ▸ h1) (not_le.mpr (hb v hv))
  · obtain ⟨v, hv, hveq⟩ := List.mem_map.mp h
    exact ⟨v, hv, hveq.symm⟩

theorem gmm_snd_attained {shape : List vector_t} (u : vector_t) (hne : shape ≠ [])
    (hb : ∀ v ∈ shape, vec_dot v u < DBL_MAX) :
    ∃ v ∈ shape, (get_max_min_projections shape u).2 = vec_dot v u := by
  rw [gmm_eq_foldl]
  rcases foldl_min_eq_init_or_mem (shape.map fun v => vec_dot v u) DBL_MAX with h | h
  · obtain ⟨v, hv⟩ := List.exists_mem_of_ne_nil shape hne
    have h1 := foldl_min_le_of_mem (l := shape.map fun v => vec_dot v u) DBL_MAX
      (List.mem_map_of_mem _ hv)
    exact absurd (h ▸ h1) (not_le.mpr (hb v hv))
  · obtain ⟨v, hv, hveq⟩ := List.mem_map.mp h
    exact ⟨v, hv, hveq.symm⟩

/-! ### Vector and unit-axis facts -/

theorem vec_dot_linear (u : vector_t) : IsLinearMap ℝ fun x : vector_t => vec_dot x u := by
  constructor
  · intro a b
    simp only [vec_dot, Prod.fst_add, Prod.snd_add]
    ring
  · intro c a
    simp only [vec_dot, Prod.smul_fst, Prod.smul_snd, smul_eq_mul]
    ring

theorem vec_dot_add_smul (q w u : vector_t) (c : ℝ) :
    vec_dot (q + c • w) u = vec_dot q u + c * vec_dot w u := by
  simp only [vec_dot, Prod.fst_add, Prod.snd_add, Prod.smul_fst, Prod.smul_snd,
    smul_eq_mul]
  ring

theorem vec_dot_self_pos {v : vector_t} (hv : v ≠ VEC_ZERO) : 0 < vec_dot v v := by
  have h : v.1 ≠ 0 ∨ v.2 ≠ 0 := by
    by_contra hc
    push_neg at hc
    exact hv (Prod.ext hc.1 hc.2)
  have h1 : (0 : ℝ) ≤ v.1 * v.1 := mul_self_nonneg v.1
  have h2 : (0 : ℝ) ≤ v.2 * v.2 := mul_self_nonneg v.2
  rcases h with h | h
  · have := mul_self_pos.mpr h
    simp only [vec_dot]; linarith
  · have := mul_self_pos.mpr h
    simp only [vec_dot]; linarith

theorem vec_get_length_nonneg (v : vector_t) : 0 ≤ vec_get_length v :=
  Real.sqrt_nonneg _

theorem vec_get_length_pos {v : vector_t} (hv : v ≠ VEC_ZERO) :
    0 < vec_get_length v := by
  apply Real.sqrt_pos.mpr
  have := vec_dot_self_pos hv
  simp only [vec_dot] at this
  nlinarith [this]

theorem abs_fst_le_length (v : vector_t) : |v.1| ≤ vec_get_length v := by
  rw [← Real.sqrt_sq_eq_abs]
  exact Real.sqrt_le_sqrt (by nlinarith [sq_nonneg v.2])

theorem abs_snd_le_length (v : vector_t) : |v.2| ≤ vec_get_length v := by
  rw [← Real.sqrt_sq_eq_abs]
  exact Real.sqrt_le_sqrt (by nlinarith [sq_nonneg v.1])

theorem vec_get_length_smul (c : ℝ) (v : vector_t) :
    vec_get_length (vec_multiply c v) = |c| * vec_get_length v := by
  simp only [vec_get_length, vec_multiply]
  rw [show (c * v.1) ^ 2 + (c * v.2) ^ 2 = c ^ 2 * (v.1 ^ 2 + v.2 ^ 2) by ring,
    Real.sqrt_mul (sq_nonneg c), Real.sqrt_sq_eq_abs]

theorem perp_ne_zero {e : vector_t} (he : e ≠ VEC_ZERO) :
    ((-1 * e.2, e.1) : vector_t) ≠ VEC_ZERO := by
  intro hc
  apply he
  have h1 : -1 * e.2 = (0 : ℝ) := by
    have := congrArg Prod.fst hc
    simpa [VEC_ZERO] using this
  have h2 : e.1 = (0 : ℝ) := by
    have := congrArg Prod.snd hc
    simpa [VEC_ZERO] using this
  have h3 : e.2 = (0 : ℝ) := by linarith
  simp [VEC_ZERO, Prod.ext_iff, h2, h3]

theorem vec_get_length_unit_axis {e : vector_t} (he : e ≠ VEC_ZERO) :
    vec_get_length (unit_axis_of e) = 1 := by
  have hp := vec_get_length_pos (perp_ne_zero he)
  show vec_get_length
    (vec_multiply (1 / vec_get_length (-1 * e.2, e.1)) (-1 * e.2, e.1)) = 1
  rw [vec_get_length_smul, abs_of_nonneg (by positivity), one_div,
    inv_mul_cancel₀ (ne_of_gt hp)]

theorem unit_axis_ne_zero {e : vector_t} (he : e ≠ VEC_ZERO) :
    unit_axis_of e ≠ VEC_ZERO := by
  intro hc
  have h := vec_get_length_unit_axis he
  rw [hc] at h
  simp only [vec_get_length, VEC_ZERO] at h
  norm_num at h

theorem abs_unit_axis_fst (e : vector_t) : |(unit_axis_of e).1| ≤ 1 := by
  unfold unit_axis_of vec_multiply
  simp only
  set p : vector_t := (-1 * e.2, e.1) with hp
  rcases eq_or_lt_of_le (vec_get_length_nonneg p) with h | h
  · rw [← h]
    simp
  · rw [abs_mul, abs_of_nonneg (le_of_lt (by positivity : (0:ℝ) < 1 / vec_get_length p)),
      one_div, inv_mul_eq_div, div_le_one h]
    exact abs_fst_le_length p

theorem abs_unit_axis_snd (e : vector_t) : |(unit_axis_of e).2| ≤ 1 := by
  unfold unit_axis_of vec_multiply
  simp only
  set p : vector_t := (-1 * e.2, e.1) with hp
  rcases eq_or_lt_of_le (vec_get_length_nonneg p) with h | h
  · rw [← h]
    simp
  · rw [abs_mul, abs_of_nonneg (le_of_lt (by positivity : (0:ℝ) < 1 / vec_get_length p)),
      one_div, inv_mul_eq_div, div_le_one h]
    exact abs_snd_le_length p

/-! ### Coordinate bounds keeping every projection inside the DBL_MAX sentinels -/

/-- every vertex coordinate is at most 2 ^ 500 in magnitude, so that all
quantities the detector computes stay strictly inside the DBL_MAX
sentinels -/
def coords_bounded (shape : List vector_t) : Prop :=
  ∀ v ∈ shape, |v.1| ≤ 2 ^ 500 ∧ |v.2| ≤ 2 ^ 500

theorem abs_dot_le_of_bounded {shape : List vector_t} (hb : coords_bounded shape)
    {v : vector_t} (hv : v ∈ shape) {u : vector_t} (hu1 : |u.1| ≤ 1)
    (hu2 : |u.2| ≤ 1) : |vec_dot v u| ≤ 2 ^ 501 := by
  obtain ⟨h1, h2⟩ := hb v hv
  calc |vec_dot v u| ≤ |v.1 * u.1| + |v.2 * u.2| := abs_add _ _
    _ = |v.1| * |u.1| + |v.2| * |u.2| := by rw [abs_mul, abs_mul]
    _ ≤ 2 ^ 500 * 1 + 2 ^ 500 * 1 := by
        have hA : |v.1| * |u.1| ≤ 2 ^ 500 * 1 :=
          mul_le_mul h1 hu1 (abs_nonneg u.1) (by positivity)
        have hB : |v.2| * |u.2| ≤ 2 ^ 500 * 1 :=
          mul_le_mul h2 hu2 (abs_nonneg u.2) (by positivity)
        linarith
    _ = 2 ^ 501 := by ring

theorem two_pow_502_lt_dblmax : (2 : ℝ) ^ 502 < DBL_MAX := by
  unfold DBL_MAX
  have h1 : (2 : ℝ) ^ 502 < 2 ^ 1023 := by
    apply pow_lt_pow_right₀ (by norm_num) (by norm_num)
  have h2 : (2 : ℝ) ^ 971 ≤ 2 ^ 1023 := by
    apply pow_le_pow_right₀ (by norm_num) (by norm_num)
  have h3 : (2 : ℝ) ^ 1024 = 2 ^ 1023 + 2 ^ 1023 := by ring
  linarith

theorem dblmax_pos : (0 : ℝ) < DBL_MAX := by
  have := two_pow_502_lt_dblmax
  have h : (0 : ℝ) < 2 ^ 502 := by positivity
  linarith

/-! ### Control-flow lemmas for the compare_collision loop -/

theorem compare_loop_cons_sep (shape1 shape2 : List vector_t) (e : vector_t)
    (rest : List vector_t) (col : collision_info_t) (m : ℝ)
    (hsep : separated_on shape1 shape2 (unit_axis_of e)) :
    compare_loop shape1 shape2 (e :: rest) col m = (col, m) := by
  simp only [compare_loop]
  exact if_pos hsep

theorem compare_loop_cons_lt (shape1 shape2 : List vector_t) (e : vector_t)
    (rest : List vector_t) (col : collision_info_t) (m : ℝ)
    (hsep : ¬ separated_on shape1 shape2 (unit_axis_of e))
    (hlt : overlap_depth shape1 shape2 (unit_axis_of e) < m) :
    compare_loop shape1 shape2 (e :: rest) col m =
      compare_loop shape1 shape2 rest { col with axis := unit_axis_of e }
        (overlap_depth shape1 shape2 (unit_axis_of e)) := by
  simp only [compare_loop]
  split_ifs with h1 h2
  · exact absurd h1 hsep
  · rfl
  · exact absurd hlt h2

theorem compare_loop_cons_ge (shape1 shape2 : List vector_t) (e : vector_t)
    (rest : List vector_t) (col : collision_info_t) (m : ℝ)
    (hsep : ¬ separated_on shape1 shape2 (unit_axis_of e))
    (hge : ¬ overlap_depth shape1 shape2 (unit_axis_of e) < m) :
    compare_loop shape1 shape2 (e :: rest) col m =
      compare_loop shape1 shape2 rest col m := by
  simp only [compare_loop]
  split_ifs with h1 h2
  · exact absurd h1 hsep
  · exact absurd h2 hge
  · rfl

theorem compare_loop_collided_iff (shape1 shape2 : List vector_t) :
    ∀ (es : List vector_t) (col : collision_info_t) (m : ℝ), col.collided = false →
      ((compare_loop shape1 shape2 es col m).1.collided = true ↔
        ∀ e ∈ es, ¬ separated_on shape1 shape2 (unit_axis_of e)) := by
  intro es
  induction es with
  | nil =>
    intro col m _
    simp [compare_loop]
  | cons e rest ih =>
    intro col m hcol
    rw [List.forall_mem_cons]
    by_cases hsep : separated_on shape1 shape2 (unit_axis_of e)
    · rw [compare_loop_cons_sep shape1 shape2 e rest col m hsep]
      simp [hcol, hsep]
    · by_cases hlt : overlap_depth shape1 shape2 (unit_axis_of e) < m
      · rw [compare_loop_cons_lt shape1 shape2 e rest col m hsep hlt,
          ih { col with axis := unit_axis_of e } _ hcol]
        simp [hsep]
      · rw [compare_loop_cons_ge shape1 shape2 e rest col m hsep hlt, ih col m hcol]
        simp [hsep]

theorem compare_collision_collided_iff (shape1 shape2 : List vector_t) (m : ℝ) :
    ((compare_collision shape1 shape2 m).1.collided = true ↔
      ∀ e ∈ get_edges shape1, ¬ separated_on shape1 shape2 (unit_axis_of e)) :=
  compare_loop_collided_iff shape1 shape2 (get_edges shape1) ⟨VEC_ZERO, false⟩ m rfl

theorem find_collision_collided_eq (body1 body2 : List vector_t) :
    (find_collision body1 body2).collided =
      ((compare_collision body1 body2 DBL_MAX).1.collided &&
        (compare_collision body2 body1 DBL_MAX).1.collided) := by
  simp only [find_collision]
  rcases hb1 : (compare_collision body1 body2 DBL_MAX).1.collided with _ | _ <;>
    rcases hb2 : (compare_collision body2 body1 DBL_MAX).1.collided with _ | _
  · simp [hb1]
  · simp [hb1]
  · simp [hb1, hb2]
  · simp only [hb1, hb2, Bool.and_self]
    rw [if_neg (by simp), if_neg (by simp)]
    split_ifs with h
    · exact hb1
    · exact hb2

theorem find_collision_collided_iff (body1 body2 : List vector_t) :
    ((find_collision body1 body2).collided = true ↔
      (∀ e ∈ get_edges body1, ¬ separated_on body1 body2 (unit_axis_of e)) ∧
        ∀ e ∈ get_edges body2, ¬ separated_on body2 body1 (unit_axis_of e)) := by
  rw [find_collision_collided_eq, Bool.and_eq_true, compare_collision_collided_iff,
    compare_collision_collided_iff]

theorem compare_loop_truncates (shape1 shape2 : List vector_t) :
    ∀ (front : List vector_t) (a : vector_t) (post : List vector_t)
      (col : collision_info_t) (m : ℝ),
      (∀ e ∈ front, ¬ separated_on shape1 shape2 (unit_axis_of e)) →
      separated_on shape1 shape2 (unit_axis_of a) →
      compare_loop shape1 shape2 (front ++ a :: post) col m =
        compare_loop shape1 shape2 (front ++ [a]) col m := by
  intro front
  induction front with
  | nil =>
    intro a post col m _ hsep
    simp only [List.nil_append]
    rw [compare_loop_cons_sep shape1 shape2 a post col m hsep,
      compare_loop_cons_sep shape1 shape2 a [] col m hsep]
  | cons e front ih =>
    intro a post col m hfront hsep
    have he : ¬ separated_on shape1 shape2 (unit_axis_of e) :=
      hfront e (List.mem_cons_self e front)
    have hfront' : ∀ x ∈ front, ¬ separated_on shape1 shape2 (unit_axis_of x) :=
      fun x hx => hfront x (List.mem_cons_of_mem e hx)
    by_cases hlt : overlap_depth shape1 shape2 (unit_axis_of e) < m
    · rw [List.cons_append, List.cons_append,
        compare_loop_cons_lt shape1 shape2 e _ col m he hlt,
        compare_loop_cons_lt shape1 shape2 e _ col m he hlt]
      exact ih a post _ _ hfront' hsep
    · rw [List.cons_append, List.cons_append,
        compare_loop_cons_ge shape1 shape2 e _ col m he hlt,
        compare_loop_cons_ge shape1 shape2 e _ col m he hlt]
      exact ih a post _ _ hfront' hsep

theorem compare_loop_min_tracking (shape1 shape2 : List vector_t) :
    ∀ (es : List vector_t) (col : collision_info_t) (m : ℝ), col.collided = false →
      (compare_loop shape1 shape2 es col m).1.collided = true →
      (compare_loop shape1 shape2 es col m).2 =
          es.foldl (fun acc e => min acc (overlap_depth shape1 shape2 (unit_axis_of e))) m ∧
        (((compare_loop shape1 shape2 es col m).1.axis = col.axis ∧
            (compare_loop shape1 shape2 es col m).2 = m) ∨
          ∃ e ∈ es, (compare_loop shape1 shape2 es col m).1.axis = unit_axis_of e ∧
            overlap_depth shape1 shape2 (unit_axis_of e) =
              (compare_loop shape1 shape2 es col m).2 ∧
            (compare_loop shape1 shape2 es col m).2 < m) := by
  intro es
  induction es with
  | nil =>
    intro col m _ _
    simp [compare_loop]
  | cons e rest ih =>
    intro col m hcol hres
    by_cases hsep : separated_on shape1 shape2 (unit_axis_of e)
    · rw [compare_loop_cons_sep shape1 shape2 e rest col m hsep] at hres
      rw [hcol] at hres
      cases hres
    · by_cases hlt : overlap_depth shape1 shape2 (unit_axis_of e) < m
      · rw [compare_loop_cons_lt shape1 shape2 e rest col m hsep hlt] at hres ⊢
        obtain ⟨hfold, hax⟩ := ih { col with axis := unit_axis_of e } _ hcol hres
        constructor
        · rw [hfold, List.foldl_cons, min_eq_right hlt.le]
        · rcases hax with ⟨hax, hm⟩ | ⟨e', he', hax, hov, hm⟩
          · exact Or.inr ⟨e, List.mem_cons_self e rest, hax, by rw [hm], by rw [hm]; exact hlt⟩
          · exact Or.inr ⟨e', List.mem_cons_of_mem e he', hax, hov, hm.trans hlt⟩
      · rw [compare_loop_cons_ge shape1 shape2 e rest col m hsep hlt] at hres ⊢
        obtain ⟨hfold, hax⟩ := ih col m hcol hres
        constructor
        · rw [hfold, List.foldl_cons, min_eq_left (not_lt.mp hlt)]
        · rcases hax with ⟨hax, hm⟩ | ⟨e', he', hax, hov, hm⟩
          · exact Or.inl ⟨hax, hm⟩
          · exact Or.inr ⟨e', List.mem_cons_of_mem e he', hax, hov, hm⟩

/-! ### Claim C9: edge extraction -/

/-- C9: for every ordered sequence of N >= 3 vertices, get_edges produces
exactly N edge vectors with edge i = vertex i - vertex ((i+1) mod N) for
every i below N.  The input list is an immutable value in the embedding, so
get_edges cannot modify it. -/
theorem get_edges_spec (shape : List vector_t) (h3 : 3 ≤ shape.length) :
    (get_edges shape).length = shape.length ∧
      ∀ i, i < shape.length →
        (get_edges shape).getD i VEC_ZERO =
          vec_subtract (shape.getD i VEC_ZERO)
            (shape.getD ((i + 1) % shape.length) VEC_ZERO) := by
  constructor
  · simp [get_edges]
  · intro i hi
    have hlen : i < (get_edges shape).length := by simpa [get_edges] using hi
    rw [List.getD_eq_getElem _ _ hlen]
    simp only [get_edges, List.getElem_map, List.getElem_range]
    rw [Nat.mod_eq_of_lt hi]

/-- witness for C9 at the triangle (0,0), (2,0), (0,2), index 1 -/
theorem get_edges_spec_witness :
    (get_edges [((0:ℝ),(0:ℝ)), (2,0), (0,2)]).length =
        ([((0:ℝ),(0:ℝ)), (2,0), (0,2)] : List vector_t).length ∧
      (get_edges [((0:ℝ),(0:ℝ)), (2,0), (0,2)]).getD 1 VEC_ZERO =
        vec_subtract (([((0:ℝ),(0:ℝ)), (2,0), (0,2)] : List vector_t).getD 1 VEC_ZERO)
          (([((0:ℝ),(0:ℝ)), (2,0), (0,2)] : List vector_t).getD
            ((1 + 1) % ([((0:ℝ),(0:ℝ)), (2,0), (0,2)] : List vector_t).length) VEC_ZERO) := by
  obtain ⟨h1, h2⟩ := get_edges_spec [((0:ℝ),(0:ℝ)), (2,0), (0,2)] (by norm_num)
  exact ⟨h1, h2 1 (by norm_num)⟩

/-! ### Claim C7: symmetry of the collision verdict -/

/-- C7: find_collision applied to (A, B) and to (B, A) returns the same
collided boolean: the verdict is the conjunction of the same two per-shape
passes in either order. -/
theorem collision_verdict_symm (body1 body2 : List vector_t) :
    (find_collision body1 body2).collided = (find_collision body2 body1).collided := by
  rw [find_collision_collided_eq, find_collision_collided_eq, Bool.and_comm]

/-! ### Claim C6: separation test and early exit -/

/-- C6: if some normalised edge-normal axis of either shape has projection
intervals with minB >= maxA or maxB <= minA (the non-strict test of
collision.c line 75), find_collision returns collided = false; moreover the
per-shape loop stops at the first separating axis: the edges after it are
never examined, so the loop's result on the full list equals its result on
the list truncated just past that axis. -/
theorem separation_early_exit :
    (∀ body1 body2 : List vector_t,
      ((∃ e ∈ get_edges body1, separated_on body1 body2 (unit_axis_of e)) ∨
        ∃ e ∈ get_edges body2, separated_on body2 body1 (unit_axis_of e)) →
      (find_collision body1 body2).collided = false) ∧
    (∀ (shape1 shape2 front : List vector_t) (a : vector_t)
        (post : List vector_t) (col : collision_info_t) (m : ℝ),
      (∀ e ∈ front, ¬ separated_on shape1 shape2 (unit_axis_of e)) →
      separated_on shape1 shape2 (unit_axis_of a) →
      compare_loop shape1 shape2 (front ++ a :: post) col m =
        compare_loop shape1 shape2 (front ++ [a]) col m) := by
  constructor
  · intro body1 body2 h
    rcases Bool.eq_false_or_eq_true (find_collision body1 body2).collided with ht | hf
    · exfalso
      obtain ⟨h1, h2⟩ := (find_collision_collided_iff body1 body2).mp ht
      rcases h with ⟨e, he, hsep⟩ | ⟨e, he, hsep⟩
      · exact h1 e he hsep
      · exact h2 e he hsep
    · exact hf
  · exact fun shape1 shape2 => compare_loop_truncates shape1 shape2

/-! ### Claim C3: collision debouncing (spec-modelled) -/

theorem collision_tick_eq (c flag : Bool) : collision_tick c flag = (c && !flag, c) := by
  cases c <;> cases flag <;> rfl

theorem collision_run_length (ts : List Bool) :
    ∀ flag, (collision_run ts flag).length = ts.length := by
  induction ts with
  | nil => intro flag; rfl
  | cons c rest ih => intro flag; simp [collision_run, ih]

theorem collision_run_getD (ts : List Bool) :
    ∀ (flag : Bool) (i : ℕ), i < ts.length →
      (collision_run ts flag).getD i false =
        (ts.getD i false && !(if i = 0 then flag else ts.getD (i - 1) false)) := by
  induction ts with
  | nil => intro flag i hi; cases hi
  | cons c rest ih =>
    intro flag i hi
    have hrw : collision_run (c :: rest) flag = (c && !flag) :: collision_run rest c := by
      simp [collision_run, collision_tick_eq]
    cases i with
    | zero => simp [hrw]
    | succ n =>
      rw [hrw, List.getD_cons_succ]
      have hn : n < rest.length := Nat.lt_of_succ_lt_succ hi
      rw [ih c n hn]
      cases n with
      | zero => simp
      | succ m => simp

/-- C3 (spec-modelled): for every tick sequence, the handler registered by
create_collision fires at tick i exactly when find_collision reports
collided there and either i is the first tick or the previous tick reported
no collision: it fires on the false-to-true transition, stays silent while
the bodies remain continuously colliding, and can fire again only after a
non-colliding tick has cleared the persisted flag. -/
theorem collision_debounce (ticks : List Bool) (i : ℕ) (hi : i < ticks.length) :
    (collision_fires ticks).length = ticks.length ∧
      ((collision_fires ticks).getD i false = true ↔
        ticks.getD i false = true ∧ (i = 0 ∨ ticks.getD (i - 1) false = false)) := by
  refine ⟨collision_run_length ticks false, ?_⟩
  rw [collision_fires, collision_run_getD ticks false i hi]
  cases i with
  | zero => simp
  | succ n =>
    simp only [Nat.succ_ne_zero, if_false, Nat.add_sub_cancel]
    cases h : ticks.getD (n + 1) false <;> cases h2 : ticks.getD n false <;> simp [h, h2]

/-- witness for C3 on the tick sequence true, true, false, true at tick 3 -/
theorem collision_debounce_witness :
    (collision_fires [true, true, false, true]).length =
        ([true, true, false, true] : List Bool).length ∧
      ((collision_fires [true, true, false, true]).getD 3 false = true ↔
        ([true, true, false, true] : List Bool).getD 3 false = true ∧
          (3 = 0 ∨ ([true, true, false, true] : List Bool).getD (3 - 1) false = false)) :=
  collision_debounce [true, true, false, true] 3 (by decide)

/-! ### Claim C4: physics impulse formula (spec-modelled) -/

/-- C4 (spec-modelled): when the relative velocity along the collision axis
shows the bodies approaching, physics_collision_handler applies the impulse
J = mu * (1 + e) * v_rel along the axis, subtracted from body1's momentum
and added to body2's, where mu is m1 m2 / (m1 + m2) for two finite masses
and the finite mass when exactly one is infinite; an infinite-mass body
receives no impulse.  The final conjunct checks the formula is the correct
restitution impulse: for finite positive masses and a unit axis, the
post-impulse relative velocity along the axis is -e times the pre-impulse
one. -/
theorem physics_impulse_formula (m1 m2 : Option ℝ) (v1 v2 axis : vector_t) (e : ℝ)
    (happ : 0 < vec_dot (vec_subtract v1 v2) axis) :
    (∀ a b : ℝ, m1 = some a → m2 = some b →
      physics_collision_handler m1 m2 v1 v2 axis e =
        (vec_multiply (-(a * b / (a + b) * (1 + e) * vec_dot (vec_subtract v1 v2) axis)) axis,
         vec_multiply (a * b / (a + b) * (1 + e) * vec_dot (vec_subtract v1 v2) axis) axis)) ∧
    (∀ b : ℝ, m1 = none → m2 = some b →
      physics_collision_handler m1 m2 v1 v2 axis e =
        (VEC_ZERO, vec_multiply (b * (1 + e) * vec_dot (vec_subtract v1 v2) axis) axis)) ∧
    (∀ a : ℝ, m1 = some a → m2 = none →
      physics_collision_handler m1 m2 v1 v2 axis e =
        (vec_multiply (-(a * (1 + e) * vec_dot (vec_subtract v1 v2) axis)) axis, VEC_ZERO)) ∧
    (∀ a b : ℝ, m1 = some a → m2 = some b → 0 < a → 0 < b → vec_dot axis axis = 1 →
      vec_dot (vec_subtract
          (v1 + a⁻¹ • (physics_collision_handler m1 m2 v1 v2 axis e).1)
          (v2 + b⁻¹ • (physics_collision_handler m1 m2 v1 v2 axis e).2)) axis =
        -e * vec_dot (vec_subtract v1 v2) axis) := by
  have hne : ¬ vec_dot (vec_subtract v1 v2) axis ≤ 0 := not_le.mpr happ
  refine ⟨?_, ?_, ?_, ?_⟩
  · rintro a b rfl rfl
    simp only [physics_collision_handler, reduced_mass, if_neg hne]
  · rintro b rfl rfl
    simp only [physics_collision_handler, reduced_mass, if_neg hne]
  · rintro a rfl rfl
    simp only [physics_collision_handler, reduced_mass, if_neg hne]
  · rintro a b rfl rfl ha hb hunit
    have hab : a + b ≠ 0 := ne_of_gt (by linarith)
    have h1 : axis.1 * axis.1 + axis.2 * axis.2 = 1 := by
      simpa [vec_dot] using hunit
    simp only [physics_collision_handler, reduced_mass, if_neg hne]
    have key : vec_dot (vec_subtract
        (v1 + a⁻¹ • (vec_multiply
          (-(a * b / (a + b) * (1 + e) * vec_dot (vec_subtract v1 v2) axis)) axis))
        (v2 + b⁻¹ • (vec_multiply
          (a * b / (a + b) * (1 + e) * vec_dot (vec_subtract v1 v2) axis) axis))) axis =
        vec_dot (vec_subtract v1 v2) axis -
          (a * b / (a + b) * (1 + e) * vec_dot (vec_subtract v1 v2) axis) *
            (a⁻¹ + b⁻¹) * (axis.1 * axis.1 + axis.2 * axis.2) := by
      simp only [vec_dot, vec_subtract, vec_multiply, Prod.fst_add, Prod.snd_add,
        Prod.smul_fst, Prod.smul_snd, smul_eq_mul]
      ring
    rw [key, h1, mul_one]
    field_simp
    ring

/-- witness for C4 at two unit masses meeting head-on with elasticity 1 -/
theorem physics_impulse_formula_witness :
    (∀ a b : ℝ, (some (1:ℝ) : Option ℝ) = some a → (some (1:ℝ) : Option ℝ) = some b →
      physics_collision_handler (some 1) (some 1) ((1:ℝ),(0:ℝ)) ((-1:ℝ),(0:ℝ)) ((1:ℝ),(0:ℝ)) 1 =
        (vec_multiply (-(a * b / (a + b) * (1 + 1) *
            vec_dot (vec_subtract ((1:ℝ),(0:ℝ)) ((-1:ℝ),(0:ℝ))) ((1:ℝ),(0:ℝ)))) ((1:ℝ),(0:ℝ)),
         vec_multiply (a * b / (a + b) * (1 + 1) *
            vec_dot (vec_subtract ((1:ℝ),(0:ℝ)) ((-1:ℝ),(0:ℝ))) ((1:ℝ),(0:ℝ))) ((1:ℝ),(0:ℝ)))) ∧
    (∀ b : ℝ, (some (1:ℝ) : Option ℝ) = none → (some (1:ℝ) : Option ℝ) = some b →
      physics_collision_handler (some 1) (some 1) ((1:ℝ),(0:ℝ)) ((-1:ℝ),(0:ℝ)) ((1:ℝ),(0:ℝ)) 1 =
        (VEC_ZERO, vec_multiply (b * (1 + 1) *
          vec_dot (vec_subtract ((1:ℝ),(0:ℝ)) ((-1:ℝ),(0:ℝ))) ((1:ℝ),(0:ℝ))) ((1:ℝ),(0:ℝ)))) ∧
    (∀ a : ℝ, (some (1:ℝ) : Option ℝ) = some a → (some (1:ℝ) : Option ℝ) = none →
      physics_collision_handler (some 1) (some 1) ((1:ℝ),(0:ℝ)) ((-1:ℝ),(0:ℝ)) ((1:ℝ),(0:ℝ)) 1 =
        (vec_multiply (-(a * (1 + 1) *
          vec_dot (vec_subtract ((1:ℝ),(0:ℝ)) ((-1:ℝ),(0:ℝ))) ((1:ℝ),(0:ℝ)))) ((1:ℝ),(0:ℝ)),
         VEC_ZERO)) ∧
    (∀ a b : ℝ, (some (1:ℝ) : Option ℝ) = some a → (some (1:ℝ) : Option ℝ) = some b →
      0 < a → 0 < b →
      vec_dot ((1:ℝ),(0:ℝ)) ((1:ℝ),(0:ℝ)) = 1 →
      vec_dot (vec_subtract
          (((1:ℝ),(0:ℝ)) + a⁻¹ • (physics_collision_handler (some 1) (some 1)
            ((1:ℝ),(0:ℝ)) ((-1:ℝ),(0:ℝ)) ((1:ℝ),(0:ℝ)) 1).1)
          (((-1:ℝ),(0:ℝ)) + b⁻¹ • (physics_collision_handler (some 1) (some 1)
            ((1:ℝ),(0:ℝ)) ((-1:ℝ),(0:ℝ)) ((1:ℝ),(0:ℝ)) 1).2)) ((1:ℝ),(0:ℝ)) =
        -1 * vec_dot (vec_subtract ((1:ℝ),(0:ℝ)) ((-1:ℝ),(0:ℝ))) ((1:ℝ),(0:ℝ))) :=
  physics_impulse_formula (some 1) (some 1) ((1:ℝ),(0:ℝ)) ((-1:ℝ),(0:ℝ)) ((1:ℝ),(0:ℝ)) 1
    (by norm_num [vec_dot, vec_subtract])

/-! ### Bounds on the quantities of one pass, and the minimum-overlap result -/

theorem get_edges_length (shape : List vector_t) :
    (get_edges shape).length = shape.length := by
  simp [get_edges]

theorem gmm_fst_le_pow {shape : List vector_t} (hb : coords_bounded shape)
    (e : vector_t) :
    (get_max_min_projections shape (unit_axis_of e)).1 ≤ 2 ^ 501 := by
  rw [gmm_eq_foldl]
  dsimp only
  rcases foldl_max_eq_init_or_mem
      (shape.map fun v => vec_dot v (unit_axis_of e)) (-DBL_MAX) with h | h
  · rw [h]
    have h1 := dblmax_pos
    have h2 : (0:ℝ) ≤ 2 ^ 501 := by positivity
    linarith
  · obtain ⟨v, hv, hveq⟩ := List.mem_map.mp h
    rw [← hveq]
    exact (le_abs_self _).trans
      (abs_dot_le_of_bounded hb hv (abs_unit_axis_fst e) (abs_unit_axis_snd e))

theorem gmm_snd_ge_pow {shape : List vector_t} (hb : coords_bounded shape)
    (e : vector_t) :
    -(2:ℝ) ^ 501 ≤ (get_max_min_projections shape (unit_axis_of e)).2 := by
  rw [gmm_eq_foldl]
  dsimp only
  rcases foldl_min_eq_init_or_mem
      (shape.map fun v => vec_dot v (unit_axis_of e)) DBL_MAX with h | h
  · rw [h]
    have h1 := dblmax_pos
    have h2 : (0:ℝ) ≤ 2 ^ 501 := by positivity
    linarith
  · obtain ⟨v, hv, hveq⟩ := List.mem_map.mp h
    rw [← hveq]
    have hd := abs_dot_le_of_bounded hb hv (abs_unit_axis_fst e) (abs_unit_axis_snd e)
    have hn := neg_abs_le (vec_dot v (unit_axis_of e))
    linarith

theorem overlap_depth_le_pow {shape1 shape2 : List vector_t}
    (hb1 : coords_bounded shape1) (hb2 : coords_bounded shape2) (e : vector_t) :
    overlap_depth shape1 shape2 (unit_axis_of e) ≤ 2 ^ 502 := by
  unfold overlap_depth
  have h1 : (get_max_min_projections shape1 (unit_axis_of e)).1 ⊓
      (get_max_min_projections shape2 (unit_axis_of e)).1 ≤ 2 ^ 501 :=
    (min_le_left _ _).trans (gmm_fst_le_pow hb1 e)
  have h2 : -(2:ℝ) ^ 501 ≤ (get_max_min_projections shape1 (unit_axis_of e)).2 ⊔
      (get_max_min_projections shape2 (unit_axis_of e)).2 :=
    (gmm_snd_ge_pow hb1 e).trans (le_max_left _ _)
  have h3 : (2:ℝ) ^ 501 + 2 ^ 501 = 2 ^ 502 := by ring
  linarith

theorem overlap_depth_comm (shape1 shape2 : List vector_t) (u : vector_t) :
    overlap_depth shape1 shape2 u = overlap_depth shape2 shape1 u := by
  unfold overlap_depth
  rw [min_comm, max_comm]

theorem pass_fold_le_elem (shape1 shape2 : List vector_t) (m : ℝ) {e : vector_t}
    (he : e ∈ get_edges shape1) :
    (get_edges shape1).foldl
        (fun acc x => min acc (overlap_depth shape1 shape2 (unit_axis_of x))) m ≤
      overlap_depth shape1 shape2 (unit_axis_of e) := by
  rw [← List.foldl_map (fun x => overlap_depth shape1 shape2 (unit_axis_of x)) min]
  exact foldl_min_le_of_mem _ (List.mem_map_of_mem _ he)

theorem find_collision_eq_of_collided (body1 body2 : List vector_t)
    (hc1 : (compare_collision body1 body2 DBL_MAX).1.collided = true)
    (hc2 : (compare_collision body2 body1 DBL_MAX).1.collided = true) :
    find_collision body1 body2 =
      if (compare_collision body1 body2 DBL_MAX).2 <
          (compare_collision body2 body1 DBL_MAX).2
        then (compare_collision body1 body2 DBL_MAX).1
        else (compare_collision body2 body1 DBL_MAX).1 := by
  simp only [find_collision]
  rw [if_neg (by simp [hc1]), if_neg (by simp [hc2])]

theorem compare_pass_result (shape1 shape2 : List vector_t)
    (h3 : 3 ≤ shape1.length)
    (hb1 : coords_bounded shape1) (hb2 : coords_bounded shape2)
    (hc : (compare_collision shape1 shape2 DBL_MAX).1.collided = true) :
    (compare_collision shape1 shape2 DBL_MAX).2 = pass_min_overlap shape1 shape2 ∧
      ∃ e ∈ get_edges shape1,
        (compare_collision shape1 shape2 DBL_MAX).1.axis = unit_axis_of e ∧
          overlap_depth shape1 shape2 (unit_axis_of e) =
            (compare_collision shape1 shape2 DBL_MAX).2 := by
  unfold compare_collision pass_min_overlap
  obtain ⟨hfold, hax⟩ := compare_loop_min_tracking shape1 shape2 (get_edges shape1)
    ⟨VEC_ZERO, false⟩ DBL_MAX rfl hc
  refine ⟨hfold, ?_⟩
  rcases hax with ⟨_, hm⟩ | ⟨e, he, haxe, hov, _⟩
  · exfalso
    have hne : get_edges shape1 ≠ [] := by
      rw [← List.length_pos, get_edges_length]
      omega
    obtain ⟨e0, he0⟩ := List.exists_mem_of_ne_nil _ hne
    have h1 := pass_fold_le_elem shape1 shape2 DBL_MAX he0
    rw [← hfold, hm] at h1
    have h2 := overlap_depth_le_pow hb1 hb2 e0
    have h4 := two_pow_502_lt_dblmax
    linarith
  · exact ⟨e, he, haxe, hov⟩

theorem find_mtv_core (body1 body2 : List vector_t)
    (h13 : 3 ≤ body1.length) (h23 : 3 ≤ body2.length)
    (hb1 : coords_bounded body1) (hb2 : coords_bounded body2)
    (hcol : (find_collision body1 body2).collided = true) :
    (∃ e ∈ get_edges body1 ++ get_edges body2,
        (find_collision body1 body2).axis = unit_axis_of e) ∧
      ∀ e ∈ get_edges body1 ++ get_edges body2,
        overlap_depth body1 body2 ((find_collision body1 body2).axis) ≤
          overlap_depth body1 body2 (unit_axis_of e) := by
  rw [find_collision_collided_eq, Bool.and_eq_true] at hcol
  obtain ⟨hc1, hc2⟩ := hcol
  obtain ⟨hf1, e1, he1, hax1, hov1⟩ := compare_pass_result body1 body2 h13 hb1 hb2 hc1
  obtain ⟨hf2, e2, he2, hax2, hov2⟩ := compare_pass_result body2 body1 h23 hb2 hb1 hc2
  have heq := find_collision_eq_of_collided body1 body2 hc1 hc2
  by_cases hlt : (compare_collision body1 body2 DBL_MAX).2 <
      (compare_collision body2 body1 DBL_MAX).2
  · rw [heq, if_pos hlt]
    constructor
    · exact ⟨e1, List.mem_append_left _ he1, hax1⟩
    · intro e he
      rw [hax1, hov1]
      rcases List.mem_append.mp he with h | h
      · rw [hf1]
        exact pass_fold_le_elem body1 body2 DBL_MAX h
      · calc (compare_collision body1 body2 DBL_MAX).2 ≤
            (compare_collision body2 body1 DBL_MAX).2 := hlt.le
          _ ≤ overlap_depth body2 body1 (unit_axis_of e) := by
              rw [hf2]
              exact pass_fold_le_elem body2 body1 DBL_MAX h
          _ = overlap_depth body1 body2 (unit_axis_of e) := overlap_depth_comm _ _ _
  · rw [heq, if_neg hlt]
    constructor
    · exact ⟨e2, List.mem_append_right _ he2, hax2⟩
    · intro e he
      rw [hax2]
      have hoveq : overlap_depth body1 body2 (unit_axis_of e2) =
          (compare_collision body2 body1 DBL_MAX).2 := by
        rw [overlap_depth_comm]
        exact hov2
      rw [hoveq]
      rcases List.mem_append.mp he with h | h
      · calc (compare_collision body2 body1 DBL_MAX).2 ≤
            (compare_collision body1 body2 DBL_MAX).2 := not_lt.mp hlt
          _ ≤ overlap_depth body1 body2 (unit_axis_of e) := by
              rw [hf1]
              exact pass_fold_le_elem body1 body2 DBL_MAX h
      · calc (compare_collision body2 body1 DBL_MAX).2 ≤
            overlap_depth body2 body1 (unit_axis_of e) := by
              rw [hf2]
              exact pass_fold_le_elem body2 body1 DBL_MAX h
          _ = overlap_depth body1 body2 (unit_axis_of e) := overlap_depth_comm _ _ _

/-! ### Claim C2: minimum-translation axis -/

/-- C2: whenever find_collision reports collided = true (for shapes of at
least three vertices whose coordinates stay within the double range), the
returned axis is one of the normalised edge normals of the two shapes, and
its overlap depth min(maxA, maxB) - max(minA, minB) is the minimum of that
overlap depth over every edge-normal axis of both shapes. -/
theorem minimum_translation_axis (body1 body2 : List vector_t)
    (h13 : 3 ≤ body1.length) (h23 : 3 ≤ body2.length)
    (hb1 : coords_bounded body1) (hb2 : coords_bounded body2)
    (hcol : (find_collision body1 body2).collided = true) :
    (∃ e ∈ get_edges body1 ++ get_edges body2,
        (find_collision body1 body2).axis = unit_axis_of e) ∧
      ∀ e ∈ get_edges body1 ++ get_edges body2,
        overlap_depth body1 body2 ((find_collision body1 body2).axis) ≤
          overlap_depth body1 body2 (unit_axis_of e) :=
  find_mtv_core body1 body2 h13 h23 hb1 hb2 hcol

/-! ### Claim C8: the returned axis is a unit vector -/

/-- C8: whenever find_collision reports collided = true, and neither polygon
has a zero-length edge (no repeated consecutive vertices), the returned axis
has Euclidean length one. -/
theorem collision_axis_unit (body1 body2 : List vector_t)
    (h13 : 3 ≤ body1.length) (h23 : 3 ≤ body2.length)
    (hz1 : ∀ e ∈ get_edges body1, e ≠ VEC_ZERO)
    (hz2 : ∀ e ∈ get_edges body2, e ≠ VEC_ZERO)
    (hb1 : coords_bounded body1) (hb2 : coords_bounded body2)
    (hcol : (find_collision body1 body2).collided = true) :
    vec_get_length (find_collision body1 body2).axis = 1 := by
  obtain ⟨⟨e, he, hax⟩, _⟩ := find_mtv_core body1 body2 h13 h23 hb1 hb2 hcol
  rw [hax]
  rcases List.mem_append.mp he with h | h
  · exact vec_get_length_unit_axis (hz1 e h)
  · exact vec_get_length_unit_axis (hz2 e h)

/-! ### Claim C10: ties go to the second pass -/

/-- C10: when both per-shape passes confirm the collision and the minimum
overlap accumulated over body1's edge normals equals the one accumulated
over body2's edge normals, find_collision returns the collision record of
the second pass, whose axis is derived from body2's edges. -/
theorem tie_returns_second_pass (body1 body2 : List vector_t)
    (h13 : 3 ≤ body1.length) (h23 : 3 ≤ body2.length)
    (hb1 : coords_bounded body1) (hb2 : coords_bounded body2)
    (hcol : (find_collision body1 body2).collided = true)
    (htie : pass_min_overlap body1 body2 = pass_min_overlap body2 body1) :
    find_collision body1 body2 = (compare_collision body2 body1 DBL_MAX).1 ∧
      ∃ e ∈ get_edges body2, (find_collision body1 body2).axis = unit_axis_of e := by
  rw [find_collision_collided_eq, Bool.and_eq_true] at hcol
  obtain ⟨hc1, hc2⟩ := hcol
  obtain ⟨hf1, _⟩ := compare_pass_result body1 body2 h13 hb1 hb2 hc1
  obtain ⟨hf2, e2, he2, hax2, _⟩ := compare_pass_result body2 body1 h23 hb2 hb1 hc2
  have heq := find_collision_eq_of_collided body1 body2 hc1 hc2
  have hnlt : ¬ (compare_collision body1 body2 DBL_MAX).2 <
      (compare_collision body2 body1 DBL_MAX).2 := by
    rw [hf1, hf2, htie]
    exact lt_irrefl _
  rw [heq, if_neg hnlt]
  exact ⟨rfl, e2, he2, hax2⟩

/-! ### A concrete colliding configuration: the unit square against itself -/

/-- the axis-aligned unit square, counterclockwise -/
noncomputable def unit_square : List vector_t := [(0, 0), (1, 0), (1, 1), (0, 1)]

theorem sq_edges : get_edges unit_square =
    [((-1:ℝ), (0:ℝ)), ((0:ℝ), (-1:ℝ)), ((1:ℝ), (0:ℝ)), ((0:ℝ), (1:ℝ))] := by
  norm_num [get_edges, unit_square, vec_subtract, VEC_ZERO, List.range_succ]

theorem sq_ua0 : unit_axis_of ((-1:ℝ), (0:ℝ)) = ((0:ℝ), (-1:ℝ)) := by
  show vec_multiply (1 / vec_get_length (-1 * 0, -1)) ((-1 : ℝ) * 0, (-1 : ℝ)) =
    ((0:ℝ), (-1:ℝ))
  norm_num [vec_multiply, vec_get_length]

theorem sq_ua1 : unit_axis_of ((0:ℝ), (-1:ℝ)) = ((1:ℝ), (0:ℝ)) := by
  show vec_multiply (1 / vec_get_length (-1 * -1, 0)) ((-1 : ℝ) * -1, (0 : ℝ)) =
    ((1:ℝ), (0:ℝ))
  norm_num [vec_multiply, vec_get_length]

theorem sq_ua2 : unit_axis_of ((1:ℝ), (0:ℝ)) = ((0:ℝ), (1:ℝ)) := by
  show vec_multiply (1 / vec_get_length (-1 * 0, 1)) ((-1 : ℝ) * 0, (1 : ℝ)) =
    ((0:ℝ), (1:ℝ))
  norm_num [vec_multiply, vec_get_length]

theorem sq_ua3 : unit_axis_of ((0:ℝ), (1:ℝ)) = ((-1:ℝ), (0:ℝ)) := by
  show vec_multiply (1 / vec_get_length (-1 * 1, 0)) ((-1 : ℝ) * 1, (0 : ℝ)) =
    ((-1:ℝ), (0:ℝ))
  norm_num [vec_multiply, vec_get_length]

theorem sq_gmm_down : get_max_min_projections unit_square ((0:ℝ), (-1:ℝ)) =
    ((0:ℝ), (-1:ℝ)) := by
  have h := two_pow_502_lt_dblmax
  have h0 : (0:ℝ) < 2 ^ 502 := by positivity
  norm_num [get_max_min_projections, unit_square, vec_dot]
  constructor <;> split_ifs <;> norm_num <;> linarith

theorem sq_gmm_right : get_max_min_projections unit_square ((1:ℝ), (0:ℝ)) =
    ((1:ℝ), (0:ℝ)) := by
  have h := two_pow_502_lt_dblmax
  have h0 : (0:ℝ) < 2 ^ 502 := by positivity
  norm_num [get_max_min_projections, unit_square, vec_dot]
  constructor <;> split_ifs <;> norm_num <;> linarith

theorem sq_gmm_up : get_max_min_projections unit_square ((0:ℝ), (1:ℝ)) =
    ((1:ℝ), (0:ℝ)) := by
  have h := two_pow_502_lt_dblmax
  have h0 : (0:ℝ) < 2 ^ 502 := by positivity
  norm_num [get_max_min_projections, unit_square, vec_dot]
  constructor <;> split_ifs <;> norm_num <;> linarith

theorem sq_gmm_left : get_max_min_projections unit_square ((-1:ℝ), (0:ℝ)) =
    ((0:ℝ), (-1:ℝ)) := by
  have h := two_pow_502_lt_dblmax
  have h0 : (0:ℝ) < 2 ^ 502 := by positivity
  norm_num [get_max_min_projections, unit_square, vec_dot]
  constructor <;> split_ifs <;> norm_num <;> linarith

theorem sq_nosep0 : ¬ separated_on unit_square unit_square
    (unit_axis_of ((-1:ℝ), (0:ℝ))) := by
  rw [separated_on, sq_ua0, sq_gmm_down]
  norm_num

theorem sq_nosep1 : ¬ separated_on unit_square unit_square
    (unit_axis_of ((0:ℝ), (-1:ℝ))) := by
  rw [separated_on, sq_ua1, sq_gmm_right]
  norm_num

theorem sq_nosep2 : ¬ separated_on unit_square unit_square
    (unit_axis_of ((1:ℝ), (0:ℝ))) := by
  rw [separated_on, sq_ua2, sq_gmm_up]
  norm_num

theorem sq_nosep3 : ¬ separated_on unit_square unit_square
    (unit_axis_of ((0:ℝ), (1:ℝ))) := by
  rw [separated_on, sq_ua3, sq_gmm_left]
  norm_num

theorem sq_ov0 : overlap_depth unit_square unit_square
    (unit_axis_of ((-1:ℝ), (0:ℝ))) = 1 := by
  rw [overlap_depth, sq_ua0, sq_gmm_down]
  norm_num

theorem sq_ov1 : overlap_depth unit_square unit_square
    (unit_axis_of ((0:ℝ), (-1:ℝ))) = 1 := by
  rw [overlap_depth, sq_ua1, sq_gmm_right]
  norm_num

theorem sq_ov2 : overlap_depth unit_square unit_square
    (unit_axis_of ((1:ℝ), (0:ℝ))) = 1 := by
  rw [overlap_depth, sq_ua2, sq_gmm_up]
  norm_num

theorem sq_ov3 : overlap_depth unit_square unit_square
    (unit_axis_of ((0:ℝ), (1:ℝ))) = 1 := by
  rw [overlap_depth, sq_ua3, sq_gmm_left]
  norm_num

theorem one_lt_dblmax : (1:ℝ) < DBL_MAX := by
  have h := two_pow_502_lt_dblmax
  have h0 : (1:ℝ) < 2 ^ 502 := by norm_num
  linarith

theorem sq_compare : compare_collision unit_square unit_square DBL_MAX =
    (⟨((0:ℝ), (-1:ℝ)), true⟩, 1) := by
  unfold compare_collision
  rw [sq_edges]
  rw [compare_loop_cons_lt unit_square unit_square _ _ _ _ sq_nosep0
    (by rw [sq_ov0]; exact one_lt_dblmax)]
  rw [sq_ov0]
  rw [compare_loop_cons_ge unit_square unit_square _ _ _ _ sq_nosep1
    (by rw [sq_ov1]; exact lt_irrefl 1)]
  rw [compare_loop_cons_ge unit_square unit_square _ _ _ _ sq_nosep2
    (by rw [sq_ov2]; exact lt_irrefl 1)]
  rw [compare_loop_cons_ge unit_square unit_square _ _ _ _ sq_nosep3
    (by rw [sq_ov3]; exact lt_irrefl 1)]
  rw [sq_ua0]
  rfl

theorem sq_find : find_collision unit_square unit_square =
    ⟨((0:ℝ), (-1:ℝ)), true⟩ := by
  have h := find_collision_eq_of_collided unit_square unit_square
    (by rw [sq_compare]) (by rw [sq_compare])
  rw [h, sq_compare]
  norm_num

theorem sq_collided : (find_collision unit_square unit_square).collided = true := by
  rw [sq_find]

theorem sq_len : (3:ℕ) ≤ unit_square.length := by
  norm_num [unit_square]

theorem sq_bounded : coords_bounded unit_square := by
  intro v hv
  norm_num [unit_square] at hv
  rcases hv with rfl | rfl | rfl | rfl <;> constructor <;> norm_num

theorem sq_edges_ne : ∀ e ∈ get_edges unit_square, e ≠ VEC_ZERO := by
  rw [sq_edges]
  intro e he
  norm_num [VEC_ZERO] at he ⊢
  rcases he with rfl | rfl | rfl | rfl <;> norm_num [Prod.ext_iff]

/-- witness for C2: the unit square colliding with itself -/
theorem minimum_translation_axis_witness :
    (∃ e ∈ get_edges unit_square ++ get_edges unit_square,
        (find_collision unit_square unit_square).axis = unit_axis_of e) ∧
      ∀ e ∈ get_edges unit_square ++ get_edges unit_square,
        overlap_depth unit_square unit_square
            ((find_collision unit_square unit_square).axis) ≤
          overlap_depth unit_square unit_square (unit_axis_of e) :=
  minimum_translation_axis unit_square unit_square sq_len sq_len
    sq_bounded sq_bounded sq_collided

/-- witness for C8: the unit square colliding with itself -/
theorem collision_axis_unit_witness :
    vec_get_length (find_collision unit_square unit_square).axis = 1 :=
  collision_axis_unit unit_square unit_square sq_len sq_len
    sq_edges_ne sq_edges_ne sq_bounded sq_bounded sq_collided

/-- witness for C10: the two passes of the unit square against itself tie -/
theorem tie_returns_second_pass_witness :
    find_collision unit_square unit_square =
        (compare_collision unit_square unit_square DBL_MAX).1 ∧
      ∃ e ∈ get_edges unit_square,
        (find_collision unit_square unit_square).axis = unit_axis_of e :=
  tie_returns_second_pass unit_square unit_square sq_len sq_len
    sq_bounded sq_bounded sq_collided rfl

/-! ### Hull projections and the containment claim -/

theorem hull_dot_le_gmm_fst (P : List vector_t) (u : vector_t) {x : vector_t}
    (hx : x ∈ convexHull ℝ {v | v ∈ P}) :
    vec_dot x u ≤ (get_max_min_projections P u).1 := by
  have hsub : convexHull ℝ {v | v ∈ P} ⊆
      {w | vec_dot w u ≤ (get_max_min_projections P u).1} :=
    convexHull_min (fun v hv => gmm_fst_ge u hv)
      (convex_halfSpace_le (vec_dot_linear u) _)
  exact hsub hx

theorem gmm_snd_le_hull_dot (P : List vector_t) (u : vector_t) {x : vector_t}
    (hx : x ∈ convexHull ℝ {v | v ∈ P}) :
    (get_max_min_projections P u).2 ≤ vec_dot x u := by
  have hsub : convexHull ℝ {v | v ∈ P} ⊆
      {w | (get_max_min_projections P u).2 ≤ vec_dot w u} :=
    convexHull_min (fun v hv => gmm_snd_le u hv)
      (convex_halfSpace_ge (vec_dot_linear u) _)
  exact hsub hx

theorem interior_dot_lt_gmm_fst (P : List vector_t) {u : vector_t}
    (hu : u ≠ VEC_ZERO) {x : vector_t}
    (hx : x ∈ interior (convexHull ℝ {v | v ∈ P})) :
    vec_dot x u < (get_max_min_projections P u).1 := by
  obtain ⟨ε, hε, hball⟩ := Metric.mem_nhds_iff.mp (mem_interior_iff_mem_nhds.mp hx)
  set δ : ℝ := ε / (‖u‖ + 1) with hδdef
  have hnorm : (0:ℝ) < ‖u‖ + 1 := by positivity
  have hδ : 0 < δ := div_pos hε hnorm
  have hmem : x + δ • u ∈ convexHull ℝ {v | v ∈ P} := by
    apply hball
    rw [Metric.mem_ball, dist_eq_norm, add_sub_cancel_left, norm_smul,
      Real.norm_eq_abs, abs_of_pos hδ]
    calc δ * ‖u‖ < δ * (‖u‖ + 1) := by
          apply mul_lt_mul_of_pos_left _ hδ
          linarith
      _ = ε := by
          rw [hδdef]
          field_simp
  have hle := hull_dot_le_gmm_fst P u hmem
  rw [vec_dot_add_smul] at hle
  have hpos : 0 < δ * vec_dot u u := mul_pos hδ (vec_dot_self_pos hu)
  linarith

theorem gmm_snd_lt_interior_dot (P : List vector_t) {u : vector_t}
    (hu : u ≠ VEC_ZERO) {x : vector_t}
    (hx : x ∈ interior (convexHull ℝ {v | v ∈ P})) :
    (get_max_min_projections P u).2 < vec_dot x u := by
  obtain ⟨ε, hε, hball⟩ := Metric.mem_nhds_iff.mp (mem_interior_iff_mem_nhds.mp hx)
  set δ : ℝ := ε / (‖u‖ + 1) with hδdef
  have hnorm : (0:ℝ) < ‖u‖ + 1 := by positivity
  have hδ : 0 < δ := div_pos hε hnorm
  have hmem : x + (-δ) • u ∈ convexHull ℝ {v | v ∈ P} := by
    apply hball
    rw [Metric.mem_ball, dist_eq_norm, add_sub_cancel_left, norm_smul,
      Real.norm_eq_abs, abs_neg, abs_of_pos hδ]
    calc δ * ‖u‖ < δ * (‖u‖ + 1) := by
          apply mul_lt_mul_of_pos_left _ hδ
          linarith
      _ = ε := by
          rw [hδdef]
          field_simp
  have hle := gmm_snd_le_hull_dot P u hmem
  rw [vec_dot_add_smul] at hle
  have hpos : 0 < δ * vec_dot u u := mul_pos hδ (vec_dot_self_pos hu)
  linarith

theorem contained_no_sep {body1 body2 : List vector_t} {q0 : vector_t}
    (hq0 : q0 ∈ body2)
    (hq0in : q0 ∈ interior (convexHull ℝ {v | v ∈ body1}))
    {u : vector_t} (hu : u ≠ VEC_ZERO) :
    ¬ separated_on body1 body2 u ∧ ¬ separated_on body2 body1 u := by
  have ha := interior_dot_lt_gmm_fst body1 hu hq0in
  have hb := gmm_snd_lt_interior_dot body1 hu hq0in
  have hc := gmm_fst_ge u hq0
  have hd := gmm_snd_le u hq0
  constructor
  · rw [separated_on]
    push_neg
    constructor
    · linarith
    · linarith
  · rw [separated_on]
    push_neg
    constructor
    · linarith
    · linarith

/-- C5: for every pair of triangles where every vertex of the second lies
strictly inside the first (in the interior of its convex hull), and neither
triangle has a zero-length edge, find_collision reports collided = true in
both argument orders, so full containment is detected for the pair. -/
theorem containment_collides (body1 body2 : List vector_t)
    (h1 : body1.length = 3) (h2 : body2.length = 3)
    (hz1 : ∀ e ∈ get_edges body1, e ≠ VEC_ZERO)
    (hz2 : ∀ e ∈ get_edges body2, e ≠ VEC_ZERO)
    (hin : ∀ q ∈ body2, q ∈ interior (convexHull ℝ {v | v ∈ body1})) :
    (find_collision body1 body2).collided = true ∧
      (find_collision body2 body1).collided = true := by
  have hne : body2 ≠ [] := by
    intro hc
    rw [hc] at h2
    cases h2
  obtain ⟨q0, hq0⟩ := List.exists_mem_of_ne_nil body2 hne
  have hq0in := hin q0 hq0
  have hkey : (∀ e ∈ get_edges body1, ¬ separated_on body1 body2 (unit_axis_of e)) ∧
      ∀ e ∈ get_edges body2, ¬ separated_on body2 body1 (unit_axis_of e) := by
    constructor
    · intro e he
      exact (contained_no_sep hq0 hq0in (unit_axis_ne_zero (hz1 e he))).1
    · intro e he
      exact (contained_no_sep hq0 hq0in (unit_axis_ne_zero (hz2 e he))).2
  constructor
  · exact (find_collision_collided_iff body1 body2).mpr hkey
  · exact (find_collision_collided_iff body2 body1).mpr ⟨hkey.2, hkey.1⟩

/-! ### A concrete containment configuration: a small triangle inside a big one -/

/-- the outer triangle (0,0), (3,0), (0,3) -/
noncomputable def tri_outer : List vector_t := [(0, 0), (3, 0), (0, 3)]

/-- the inner triangle (1,1), (3/2,1), (1,3/2), strictly inside tri_outer -/
noncomputable def tri_inner : List vector_t := [(1, 1), (3/2, 1), (1, 3/2)]

theorem tri_outer_hull (p : vector_t) (h1 : 0 ≤ p.1) (h2 : 0 ≤ p.2)
    (h3 : p.1 + p.2 ≤ 3) : p ∈ convexHull ℝ {v | v ∈ tri_outer} := by
  have ha : (((0:ℝ),(0:ℝ)) : vector_t) ∈ convexHull ℝ {v : vector_t | v ∈ tri_outer} :=
    subset_convexHull ℝ _ (by simp [tri_outer])
  have hb : (((3:ℝ),(0:ℝ)) : vector_t) ∈ convexHull ℝ {v : vector_t | v ∈ tri_outer} :=
    subset_convexHull ℝ _ (by simp [tri_outer])
  have hc : (((0:ℝ),(3:ℝ)) : vector_t) ∈ convexHull ℝ {v : vector_t | v ∈ tri_outer} :=
    subset_convexHull ℝ _ (by simp [tri_outer])
  by_cases hs : p.1 + p.2 = 0
  · have hp1 : p.1 = 0 := by linarith
    have hp2 : p.2 = 0 := by linarith
    have hp : p = (((0:ℝ),(0:ℝ)) : vector_t) := Prod.ext hp1 hp2
    rw [hp]
    exact ha
  · have hspos : 0 < p.1 + p.2 := lt_of_le_of_ne (by linarith) (Ne.symm hs)
    have hzmem : ((3 * p.1 / (p.1 + p.2), 3 * p.2 / (p.1 + p.2)) : vector_t) ∈
        convexHull ℝ {v : vector_t | v ∈ tri_outer} := by
      apply (convex_convexHull ℝ _).segment_subset hb hc
      refine ⟨p.1 / (p.1 + p.2), p.2 / (p.1 + p.2), by positivity, by positivity,
        by field_simp, ?_⟩
      simp only [Prod.smul_mk, smul_eq_mul, Prod.mk_add_mk, Prod.mk.injEq]
      constructor <;> field_simp <;> ring
    have hpseg : p ∈ segment ℝ (((0:ℝ),(0:ℝ)) : vector_t)
        ((3 * p.1 / (p.1 + p.2), 3 * p.2 / (p.1 + p.2)) : vector_t) := by
      refine ⟨1 - (p.1 + p.2) / 3, (p.1 + p.2) / 3, by linarith, by positivity,
        by ring, ?_⟩
      simp only [Prod.smul_mk, smul_eq_mul, Prod.mk_add_mk]
      apply Prod.ext <;> simp only <;> field_simp [hs] <;> ring
    exact (convex_convexHull ℝ _).segment_subset ha hzmem hpseg

theorem tri_outer_interior (p : vector_t) (h1 : 0 < p.1) (h2 : 0 < p.2)
    (h3 : p.1 + p.2 < 3) :
    p ∈ interior (convexHull ℝ {v | v ∈ tri_outer}) := by
  have hopen : IsOpen {q : vector_t | 0 < q.1 ∧ 0 < q.2 ∧ q.1 + q.2 < 3} := by
    have e1 : IsOpen {q : vector_t | 0 < q.1} :=
      isOpen_lt continuous_const continuous_fst
    have e2 : IsOpen {q : vector_t | 0 < q.2} :=
      isOpen_lt continuous_const continuous_snd
    have e3 : IsOpen {q : vector_t | q.1 + q.2 < 3} :=
      isOpen_lt (continuous_fst.add continuous_snd) continuous_const
    exact e1.inter (e2.inter e3)
  have hsub : {q : vector_t | 0 < q.1 ∧ 0 < q.2 ∧ q.1 + q.2 < 3} ⊆
      convexHull ℝ {v | v ∈ tri_outer} := by
    rintro q ⟨hq1, hq2, hq3⟩
    exact tri_outer_hull q hq1.le hq2.le hq3.le
  exact interior_maximal hsub hopen ⟨h1, h2, h3⟩

theorem tri_outer_edges : get_edges tri_outer =
    [((-3:ℝ), (0:ℝ)), ((3:ℝ), (-3:ℝ)), ((0:ℝ), (3:ℝ))] := by
  norm_num [get_edges, tri_outer, vec_subtract, VEC_ZERO, List.range_succ]

theorem tri_inner_edges : get_edges tri_inner =
    [((-1/2:ℝ), (0:ℝ)), ((1/2:ℝ), (-1/2:ℝ)), ((0:ℝ), (1/2:ℝ))] := by
  norm_num [get_edges, tri_inner, vec_subtract, VEC_ZERO, List.range_succ]

/-- witness for C5: tri_inner strictly inside tri_outer collides both ways -/
theorem containment_collides_witness :
    (find_collision tri_outer tri_inner).collided = true ∧
      (find_collision tri_inner tri_outer).collided = true := by
  apply containment_collides
  · rfl
  · rfl
  · rw [tri_outer_edges]
    intro e he
    norm_num at he
    rcases he with rfl | rfl | rfl <;> norm_num [VEC_ZERO, Prod.ext_iff]
  · rw [tri_inner_edges]
    intro e he
    norm_num at he
    rcases he with rfl | rfl | rfl <;> norm_num [VEC_ZERO, Prod.ext_iff]
  · intro q hq
    norm_num [tri_inner] at hq
    rcases hq with rfl | rfl | rfl <;> apply tri_outer_interior <;> norm_num

/-! ### Claim C1: SAT soundness for disjoint convex polygons -/

/-- the supporting halfplane of shape P for the normalised normal of one of
its edges, bounded by the maximum projection the detector computes -/
def edge_halfplane (P : List vector_t) (e : vector_t) : Set vector_t :=
  {x | vec_dot x (unit_axis_of e) ≤ (get_max_min_projections P (unit_axis_of e)).1}

/-- the vertex cycle P describes a convex polygon: the intersection of its
edge supporting halfplanes is contained in the convex hull of its vertices.
(The reverse inclusion holds for every vertex list, so this is the usual
equality between the vertex and halfplane descriptions of a convex
polygon.) -/
def convex_polygon (P : List vector_t) : Prop :=
  (⋂ e ∈ get_edges P, edge_halfplane P e) ⊆ convexHull ℝ {v | v ∈ P}

theorem dot_unit_lt_dblmax {shape : List vector_t} (hb : coords_bounded shape)
    {v : vector_t} (hv : v ∈ shape) (e : vector_t) :
    vec_dot v (unit_axis_of e) < DBL_MAX ∧
      -DBL_MAX < vec_dot v (unit_axis_of e) := by
  have h := abs_dot_le_of_bounded hb hv (abs_unit_axis_fst e) (abs_unit_axis_snd e)
  have h2 := two_pow_502_lt_dblmax
  have h3 : (2:ℝ) ^ 501 < 2 ^ 502 := by norm_num
  constructor
  · have h4 := le_abs_self (vec_dot v (unit_axis_of e))
    linarith
  · have h4 := neg_abs_le (vec_dot v (unit_axis_of e))
    linarith

theorem convex_edge_halfplane (P : List vector_t) (e : vector_t) :
    Convex ℝ (edge_halfplane P e) :=
  convex_halfSpace_le (vec_dot_linear (unit_axis_of e)) _

theorem finrank_vector_t : Module.finrank ℝ vector_t = 2 := by
  simp

/-- C1: for every pair of bodies whose convex polygon shapes are disjoint
(their convex hulls share no point), find_collision returns a result with
collided = false.  Convexity of a shape is taken in its halfplane form: the
intersection of the edge supporting halfplanes is inside the hull of the
vertices.  Proof: if both passes report overlap on every axis, every at most
three of the supporting halfplanes of the two polygons meet (a vertex of the
other polygon attaining the minimum projection witnesses the mixed cases),
so by Helly's theorem in the plane all of them meet, giving a common point
of the two hulls. -/
theorem sat_disjoint_not_collided (body1 body2 : List vector_t)
    (h13 : 3 ≤ body1.length) (h23 : 3 ≤ body2.length)
    (hb1 : coords_bounded body1) (hb2 : coords_bounded body2)
    (hcp1 : convex_polygon body1) (hcp2 : convex_polygon body2)
    (hdisj : Disjoint (convexHull ℝ {v | v ∈ body1})
      (convexHull ℝ {v | v ∈ body2})) :
    (find_collision body1 body2).collided = false := by
  rcases Bool.eq_false_or_eq_true (find_collision body1 body2).collided with ht | hf
  · exfalso
    obtain ⟨hs1, hs2⟩ := (find_collision_collided_iff body1 body2).mp ht
    have hne1 : body1 ≠ [] := by
      intro hc
      rw [hc] at h13
      simp at h13
    have hne2 : body2 ≠ [] := by
      intro hc
      rw [hc] at h23
      simp at h23
    obtain ⟨v0, hv0⟩ := List.exists_mem_of_ne_nil body1 hne1
    obtain ⟨q0, hq0⟩ := List.exists_mem_of_ne_nil body2 hne2
    classical
    let F : (Fin (get_edges body1).length ⊕ Fin (get_edges body2).length) →
        Set vector_t :=
      Sum.elim (fun i => edge_halfplane body1 ((get_edges body1).get i))
        (fun j => edge_halfplane body2 ((get_edges body2).get j))
    have hFl : ∀ (p : vector_t), p ∈ body1 →
        ∀ i : Fin (get_edges body1).length, p ∈ F (Sum.inl i) := by
      intro p hp i
      show vec_dot p _ ≤ _
      exact gmm_fst_ge _ hp
    have hFr : ∀ (q : vector_t), q ∈ body2 →
        ∀ j : Fin (get_edges body2).length, q ∈ F (Sum.inr j) := by
      intro q hq j
      show vec_dot q _ ≤ _
      exact gmm_fst_ge _ hq
    have hconv : ∀ x ∈ (Finset.univ :
        Finset (Fin (get_edges body1).length ⊕ Fin (get_edges body2).length)),
        Convex ℝ (F x) := by
      rintro (i | j) _
      · exact convex_edge_halfplane body1 _
      · exact convex_edge_halfplane body2 _
    have hinter : ∀ I ⊆ (Finset.univ :
        Finset (Fin (get_edges body1).length ⊕ Fin (get_edges body2).length)),
        I.card ≤ Module.finrank ℝ vector_t + 1 → (⋂ i ∈ I, F i).Nonempty := by
      intro I _ hIcard
      rw [finrank_vector_t] at hIcard
      have hsplit := Finset.filter_card_add_filter_neg_card_eq_card
        (s := I) (p := fun x => x.isLeft = true)
      by_cases hR : (I.filter (fun x => ¬ x.isLeft = true)).card ≤ 1
      · rcases Finset.eq_empty_or_nonempty
            (I.filter (fun x => ¬ x.isLeft = true)) with hRe | hRne
        · refine ⟨v0, Set.mem_biInter ?_⟩
          intro x hxI
          rcases x with i | j
          · exact hFl v0 hv0 i
          · exfalso
            have hxR : Sum.inr j ∈ I.filter (fun x => ¬ x.isLeft = true) := by
              rw [Finset.mem_filter]
              exact ⟨hxI, by simp⟩
            rw [hRe] at hxR
            exact absurd hxR (Finset.not_mem_empty _)
        · obtain ⟨x0, hx0⟩ := hRne
          have hx0I : x0 ∈ I := (Finset.mem_filter.mp hx0).1
          rcases x0 with i | j
          · exfalso
            have := (Finset.mem_filter.mp hx0).2
            simp at this
          · have hnosep := hs2 ((get_edges body2).get j) (List.get_mem _ j.1 j.2)
            rw [separated_on] at hnosep
            push_neg at hnosep
            obtain ⟨hlt1, _⟩ := hnosep
            obtain ⟨p, hp, hpeq⟩ := gmm_snd_attained
              (unit_axis_of ((get_edges body2).get j)) hne1
              (fun v hv => (dot_unit_lt_dblmax hb1 hv _).1)
            refine ⟨p, Set.mem_biInter ?_⟩
            intro x hxI
            by_cases hxl : x.isLeft = true
            · rcases x with i | j'
              · exact hFl p hp i
              · simp at hxl
            · have hxR : x ∈ I.filter (fun x => ¬ x.isLeft = true) := by
                rw [Finset.mem_filter]
                exact ⟨hxI, hxl⟩
              have hxeq : x = Sum.inr j := Finset.card_le_one.mp hR x hxR _ hx0
              rw [hxeq]
              show vec_dot p _ ≤ _
              rw [← hpeq]
              exact hlt1.le
      · have hL : (I.filter (fun x => x.isLeft = true)).card ≤ 1 := by omega
        rcases Finset.eq_empty_or_nonempty
            (I.filter (fun x => x.isLeft = true)) with hLe | hLne
        · refine ⟨q0, Set.mem_biInter ?_⟩
          intro x hxI
          rcases x with i | j
          · exfalso
            have hxL : Sum.inl i ∈ I.filter (fun x => x.isLeft = true) := by
              rw [Finset.mem_filter]
              exact ⟨hxI, by simp⟩
            rw [hLe] at hxL
            exact absurd hxL (Finset.not_mem_empty _)
          · exact hFr q0 hq0 j
        · obtain ⟨x0, hx0⟩ := hLne
          have hx0I : x0 ∈ I := (Finset.mem_filter.mp hx0).1
          rcases x0 with i | j
          · have hnosep := hs1 ((get_edges body1).get i) (List.get_mem _ i.1 i.2)
            rw [separated_on] at hnosep
            push_neg at hnosep
            obtain ⟨hlt1, _⟩ := hnosep
            obtain ⟨q, hq, hqeq⟩ := gmm_snd_attained
              (unit_axis_of ((get_edges body1).get i)) hne2
              (fun v hv => (dot_unit_lt_dblmax hb2 hv _).1)
            refine ⟨q, Set.mem_biInter ?_⟩
            intro x hxI
            by_cases hxl : x.isLeft = true
            · rcases x with i' | j'
              · have hxL : Sum.inl i' ∈ I.filter (fun x => x.isLeft = true) := by
                  rw [Finset.mem_filter]
                  exact ⟨hxI, by simp⟩
                have hxeq : Sum.inl i' = Sum.inl i :=
                  Finset.card_le_one.mp hL _ hxL _ hx0
                rw [hxeq]
                show vec_dot q _ ≤ _
                rw [← hqeq]
                exact hlt1.le
              · simp at hxl
            · rcases x with i' | j'
              · simp at hxl
              · exact hFr q hq j'
          · exfalso
            have := (Finset.mem_filter.mp hx0).2
            simp at this
    obtain ⟨x, hx⟩ := Convex.helly_theorem' hconv hinter
    have hx1 : x ∈ convexHull ℝ {v | v ∈ body1} := by
      apply hcp1
      apply Set.mem_biInter
      intro e he
      obtain ⟨i, hi⟩ := List.mem_iff_get.mp he
      rw [← hi]
      exact Set.mem_iInter₂.mp hx (Sum.inl i) (Finset.mem_univ _)
    have hx2 : x ∈ convexHull ℝ {v | v ∈ body2} := by
      apply hcp2
      apply Set.mem_biInter
      intro e he
      obtain ⟨j, hj⟩ := List.mem_iff_get.mp he
      rw [← hj]
      exact Set.mem_iInter₂.mp hx (Sum.inr j) (Finset.mem_univ _)
    exact Set.disjoint_left.mp hdisj hx1 hx2
  · exact hf

/-! ### A concrete disjoint configuration: two separated unit squares -/

/-- the unit square translated to the right by three units -/
noncomputable def square2 : List vector_t := [(3, 0), (4, 0), (4, 1), (3, 1)]

/-- every point of an axis-aligned rectangle is a convex combination of its
four corners -/
theorem rect_hull (x0 y0 x1 y1 : ℝ) (hx : x0 < x1) (hy : y0 < y1) (p : vector_t)
    (h1 : x0 ≤ p.1) (h2 : p.1 ≤ x1) (h3 : y0 ≤ p.2) (h4 : p.2 ≤ y1) :
    p ∈ convexHull ℝ {v : vector_t |
      v ∈ ([(x0, y0), (x1, y0), (x1, y1), (x0, y1)] : List vector_t)} := by
  have hxne : x1 - x0 ≠ 0 := by linarith
  have hyne : y1 - y0 ≠ 0 := by linarith
  have ha : ((x0, y0) : vector_t) ∈ convexHull ℝ {v : vector_t |
      v ∈ ([(x0, y0), (x1, y0), (x1, y1), (x0, y1)] : List vector_t)} :=
    subset_convexHull ℝ _ (by simp)
  have hb : ((x1, y0) : vector_t) ∈ convexHull ℝ {v : vector_t |
      v ∈ ([(x0, y0), (x1, y0), (x1, y1), (x0, y1)] : List vector_t)} :=
    subset_convexHull ℝ _ (by simp)
  have hc : ((x1, y1) : vector_t) ∈ convexHull ℝ {v : vector_t |
      v ∈ ([(x0, y0), (x1, y0), (x1, y1), (x0, y1)] : List vector_t)} :=
    subset_convexHull ℝ _ (by simp)
  have hd : ((x0, y1) : vector_t) ∈ convexHull ℝ {v : vector_t |
      v ∈ ([(x0, y0), (x1, y0), (x1, y1), (x0, y1)] : List vector_t)} :=
    subset_convexHull ℝ _ (by simp)
  have hz1 : ((p.1, y0) : vector_t) ∈ convexHull ℝ {v : vector_t |
      v ∈ ([(x0, y0), (x1, y0), (x1, y1), (x0, y1)] : List vector_t)} := by
    apply (convex_convexHull ℝ _).segment_subset ha hb
    refine ⟨(x1 - p.1) / (x1 - x0), (p.1 - x0) / (x1 - x0),
      div_nonneg (by linarith) (by linarith), div_nonneg (by linarith) (by linarith),
      by field_simp, ?_⟩
    simp only [Prod.smul_mk, smul_eq_mul, Prod.mk_add_mk]
    apply Prod.ext <;> simp only <;> field_simp <;> ring
  have hz2 : ((p.1, y1) : vector_t) ∈ convexHull ℝ {v : vector_t |
      v ∈ ([(x0, y0), (x1, y0), (x1, y1), (x0, y1)] : List vector_t)} := by
    apply (convex_convexHull ℝ _).segment_subset hd hc
    refine ⟨(x1 - p.1) / (x1 - x0), (p.1 - x0) / (x1 - x0),
      div_nonneg (by linarith) (by linarith), div_nonneg (by linarith) (by linarith),
      by field_simp, ?_⟩
    simp only [Prod.smul_mk, smul_eq_mul, Prod.mk_add_mk]
    apply Prod.ext <;> simp only <;> field_simp <;> ring
  apply (convex_convexHull ℝ _).segment_subset hz1 hz2
  refine ⟨(y1 - p.2) / (y1 - y0), (p.2 - y0) / (y1 - y0),
    div_nonneg (by linarith) (by linarith), div_nonneg (by linarith) (by linarith),
    by field_simp, ?_⟩
  simp only [Prod.smul_mk, smul_eq_mul, Prod.mk_add_mk]
  apply Prod.ext <;> simp only <;> field_simp <;> ring

theorem sq2_edges : get_edges square2 =
    [((-1:ℝ), (0:ℝ)), ((0:ℝ), (-1:ℝ)), ((1:ℝ), (0:ℝ)), ((0:ℝ), (1:ℝ))] := by
  norm_num [get_edges, square2, vec_subtract, VEC_ZERO, List.range_succ]

theorem sq2_gmm_down : get_max_min_projections square2 ((0:ℝ), (-1:ℝ)) =
    ((0:ℝ), (-1:ℝ)) := by
  have h := two_pow_502_lt_dblmax
  have h0 : (0:ℝ) < 2 ^ 502 := by positivity
  norm_num [get_max_min_projections, square2, vec_dot]
  constructor <;> split_ifs <;> norm_num <;> linarith

theorem sq2_gmm_right : get_max_min_projections square2 ((1:ℝ), (0:ℝ)) =
    ((4:ℝ), (3:ℝ)) := by
  have h := two_pow_502_lt_dblmax
  have h0 : (0:ℝ) < 2 ^ 502 := by positivity
  norm_num [get_max_min_projections, square2, vec_dot]
  constructor <;> split_ifs <;> norm_num <;> linarith

theorem sq2_gmm_up : get_max_min_projections square2 ((0:ℝ), (1:ℝ)) =
    ((1:ℝ), (0:ℝ)) := by
  have h := two_pow_502_lt_dblmax
  have h0 : (0:ℝ) < 2 ^ 502 := by positivity
  norm_num [get_max_min_projections, square2, vec_dot]
  constructor <;> split_ifs <;> norm_num <;> linarith

theorem sq2_gmm_left : get_max_min_projections square2 ((-1:ℝ), (0:ℝ)) =
    ((-3:ℝ), (-4:ℝ)) := by
  have h := two_pow_502_lt_dblmax
  have h0 : (0:ℝ) < 2 ^ 502 := by positivity
  norm_num [get_max_min_projections, square2, vec_dot]
  constructor <;> split_ifs <;> norm_num <;> linarith

theorem unit_square_convex : convex_polygon unit_square := by
  intro x hx
  rw [sq_edges] at hx
  have k0 := Set.mem_iInter₂.mp hx ((-1:ℝ),(0:ℝ)) (by simp)
  have k1 := Set.mem_iInter₂.mp hx ((0:ℝ),(-1:ℝ)) (by simp)
  have k2 := Set.mem_iInter₂.mp hx ((1:ℝ),(0:ℝ)) (by simp)
  have k3 := Set.mem_iInter₂.mp hx ((0:ℝ),(1:ℝ)) (by simp)
  simp only [edge_halfplane, sq_ua0, sq_gmm_down, Set.mem_setOf_eq, vec_dot] at k0
  simp only [edge_halfplane, sq_ua1, sq_gmm_right, Set.mem_setOf_eq, vec_dot] at k1
  simp only [edge_halfplane, sq_ua2, sq_gmm_up, Set.mem_setOf_eq, vec_dot] at k2
  simp only [edge_halfplane, sq_ua3, sq_gmm_left, Set.mem_setOf_eq, vec_dot] at k3
  exact rect_hull 0 0 1 1 (by norm_num) (by norm_num) x
    (by linarith) (by linarith) (by linarith) (by linarith)

theorem square2_convex : convex_polygon square2 := by
  intro x hx
  rw [sq2_edges] at hx
  have k0 := Set.mem_iInter₂.mp hx ((-1:ℝ),(0:ℝ)) (by simp)
  have k1 := Set.mem_iInter₂.mp hx ((0:ℝ),(-1:ℝ)) (by simp)
  have k2 := Set.mem_iInter₂.mp hx ((1:ℝ),(0:ℝ)) (by simp)
  have k3 := Set.mem_iInter₂.mp hx ((0:ℝ),(1:ℝ)) (by simp)
  simp only [edge_halfplane, sq_ua0, sq2_gmm_down, Set.mem_setOf_eq, vec_dot] at k0
  simp only [edge_halfplane, sq_ua1, sq2_gmm_right, Set.mem_setOf_eq, vec_dot] at k1
  simp only [edge_halfplane, sq_ua2, sq2_gmm_up, Set.mem_setOf_eq, vec_dot] at k2
  simp only [edge_halfplane, sq_ua3, sq2_gmm_left, Set.mem_setOf_eq, vec_dot] at k3
  exact rect_hull 3 0 4 1 (by norm_num) (by norm_num) x
    (by linarith) (by linarith) (by linarith) (by linarith)

theorem fst_linear : IsLinearMap ℝ (fun v : vector_t => v.1) :=
  ⟨fun _ _ => rfl, fun _ _ => rfl⟩

theorem squares_disjoint :
    Disjoint (convexHull ℝ {v : vector_t | v ∈ unit_square})
      (convexHull ℝ {v : vector_t | v ∈ square2}) := by
  have hsub1 : convexHull ℝ {v : vector_t | v ∈ unit_square} ⊆
      {v : vector_t | v.1 ≤ 1} := by
    apply convexHull_min _ (convex_halfSpace_le fst_linear 1)
    intro v hv
    simp only [unit_square, Set.mem_setOf_eq, List.mem_cons, List.mem_singleton,
      List.not_mem_nil, or_false] at hv
    rcases hv with rfl | rfl | rfl | rfl <;> norm_num
  have hsub2 : convexHull ℝ {v : vector_t | v ∈ square2} ⊆
      {v : vector_t | (3:ℝ) ≤ v.1} := by
    apply convexHull_min _ (convex_halfSpace_ge fst_linear 3)
    intro v hv
    simp only [square2, Set.mem_setOf_eq, List.mem_cons, List.mem_singleton,
      List.not_mem_nil, or_false] at hv
    rcases hv with rfl | rfl | rfl | rfl <;> norm_num
  rw [Set.disjoint_left]
  intro a ha1 ha2
  have g1 := hsub1 ha1
  have g2 := hsub2 ha2
  simp only [Set.mem_setOf_eq] at g1 g2
  linarith

theorem sq2_len : (3:ℕ) ≤ square2.length := by
  norm_num [square2]

theorem sq2_bounded : coords_bounded square2 := by
  intro v hv
  norm_num [square2] at hv
  rcases hv with rfl | rfl | rfl | rfl <;> constructor <;> norm_num

/-- witness for C1: the unit square and its translate by (3, 0) -/
theorem sat_disjoint_not_collided_witness :
    (find_collision unit_square square2).collided = false :=
  sat_disjoint_not_collided unit_square square2 sq_len sq2_len sq_bounded sq2_bounded
    unit_square_convex square2_convex squares_disjoint
